/-
Verification of the URL-deobfuscation and request-cipher protocols of this
repository against their natural-language specification.

Sources embedded here:
  * yt_dlp/extractor/vk.py        : _BASE64_CHARS, _decode, _unmask_url
  * yt_dlp/extractor/neteasemusic.py :
      _create_eapi_cipher, make_player_api_request_data_and_headers

Python integers are modelled as Int (with Int.emod for the `%` of a positive
modulus, which agrees with Python's floored modulus there) or as Nat where the
source value is provably non-negative.  Fallible operations (str.index,
sequence subscripts, tuple unpacking, int() parsing, division by zero) are
modelled with Except / Option.
-/
import Mathlib

set_option maxRecDepth 8000

/-! ## vk.py : the custom base64-style alphabet and `_decode` -/

/-- The constant `_BASE64_CHARS` of vk.py, verbatim. -/
def BASE64_CHARS : List Char :=
  "abcdefghijklmnopqrstuvwxyzABCDEFGHIJKLMN0PQRSTUVWXYZO123456789+/=".data

/-- Python's `str.index` restricted to a character: position of the first
occurrence, `none` when absent (where CPython raises `ValueError`). -/
def indexAux (c : Char) : List Char → Option Nat
  | [] => none
  | x :: xs => if x = c then some 0 else (indexAux c xs).map (· + 1)

/-- `self._BASE64_CHARS.index(c)` from `_decode`; raises `ValueError` when the
character is not in the alphabet. -/
def b64Index (c : Char) : Except String Nat :=
  match indexAux c BASE64_CHARS with
  | some i => Except.ok i
  | none => Except.error "ValueError"

/-- The accumulator update `e = 64 * e + r if cond else r` of `_decode`,
where `cond = n % 4` with `n` the number of symbols already consumed. -/
def accStep (e r n : Nat) : Nat := if n % 4 ≠ 0 then 64 * e + r else r

/-- The shift amount `-2 * n & 6` of `_decode`.  Python's `&` is the
two's-complement bitwise and; since `-2 * n` is even, masking with `6 = 0b110`
selects exactly its residue modulo `8`, so the expression equals
`(-2 * n) mod 8` (Python's floored mod, `Int.emod` for the positive modulus);
`shiftOf_eq_land` below proves the identity against Mathlib's two's-complement
`Int.land`. -/
def shiftOf (n : Nat) : Nat := (((-2 : Int) * (n : Int)) % 8).toNat

/-- The emitted character `chr(255 & e >> (-2 * n & 6))` of `_decode`; here
`n` is the value of the Python variable after `n += 1`. -/
def emitByte (e n : Nat) : Char :=
  Char.ofNat (255 &&& (e >>> shiftOf n))

/-- The loop of `_decode`: consume characters, keeping the accumulator `e` and
the count `n` of symbols already consumed.  A byte is appended exactly when
`n % 4 != 0` held before the increment. -/
def decodeAux : List Char → Nat → Nat → Except String (List Char)
  | [], _, _ => Except.ok []
  | c :: rest, e, n =>
    match b64Index c with
    | Except.error msg => Except.error msg
    | Except.ok r =>
      match decodeAux rest (accStep e r n) (n + 1) with
      | Except.error msg => Except.error msg
      | Except.ok tail =>
        if n % 4 ≠ 0 then Except.ok (emitByte (accStep e r n) (n + 1) :: tail)
        else Except.ok tail

example : shiftOf 2 = 4 := rfl
example : shiftOf 3 = 2 := rfl
example : shiftOf 4 = 0 := rfl
example : shiftOf 1 = 6 := rfl

/-- `_decode` of vk.py: `e = n = 0` and the loop above. -/
def vkDecode (s : String) : Except String String :=
  match decodeAux s.data 0 0 with
  | Except.error msg => Except.error msg
  | Except.ok l => Except.ok (String.mk l)

/-! ## vk.py : `_unmask_url` -/

/-- One assignment of the index recurrence of `_unmask_url`:
`index = (url_len * (n + 1) ^ index + n) % url_len`.  By Python precedence
`*` binds tighter than `^` and `+` binds tighter than `^`, and the enclosing
parentheses make `% url_len` apply last. -/
def vkStep (url_len n : Nat) (index : Int) : Int :=
  (Int.xor ((url_len * (n + 1) : Nat) : Int) (index + (n : Int))) % ((url_len : Nat) : Int)

/-- The table-building loop of `_unmask_url`, iterating `n` from `m - 1` down
to `0` starting from the running value `index`; the returned list is
`[T[0], ..., T[m-1]]` (the Python code stores `T[n] = index` as it descends). -/
def tableAux (url_len : Nat) : Nat → Int → List Int
  | 0, _ => []
  | m + 1, index => tableAux url_len m (vkStep url_len m index) ++ [vkStep url_len m index]

/-- The two subscript assignments
`mask_url[n] = mask_url[index]; mask_url[index] = c` with `c = mask_url[n]`:
exchange the entries at positions `i` and `j` (identity if out of range). -/
def swapList (l : List Char) (i j : Nat) : List Char :=
  match l.get? i, l.get? j with
  | some a, some b => (l.set i b).set j a
  | _, _ => l

/-- The restoring loop of `_unmask_url`: `for n in range(1, url_len)` swap
`buffer[n]` with `buffer[T[url_len - 1 - n]]`. -/
def applySwaps (buf : List Char) (T : List Int) (url_len : Nat) : List Char :=
  (List.range' 1 (url_len - 1)).foldl
    (fun b n => swapList b n (T.getD (url_len - 1 - n) 0).toNat) buf

/-- The core of `_unmask_url` acting on the decoded buffer with
`index = int(base) ^ vk_id` already combined into `seed`. -/
def unmask (buf : List Char) (seed : Int) : List Char :=
  applySwaps buf (tableAux buf.length buf.length seed) buf.length

/-- `vkStep` instrumented for `ZeroDivisionError`: Python raises it when the
executed `% url_len` has `url_len == 0`. -/
def vkStepE (url_len n : Nat) (index : Int) : Except String Int :=
  if url_len = 0 then Except.error "ZeroDivisionError"
  else Except.ok (vkStep url_len n index)

/-- The table-building loop with the `ZeroDivisionError` instrumentation. -/
def tableAuxE (url_len : Nat) : Nat → Int → Except String (List Int)
  | 0, _ => Except.ok []
  | m + 1, index =>
    match vkStepE url_len m index with
    | Except.error msg => Except.error msg
    | Except.ok i =>
      match tableAuxE url_len m i with
      | Except.error msg => Except.error msg
      | Except.ok t => Except.ok (t ++ [i])

/-- The core of `_unmask_url` with the error instrumentation: exactly the
source loops, raising `ZeroDivisionError` if and only if a `% url_len` with
`url_len == 0` is actually executed. -/
def unmaskE (buf : List Char) (seed : Int) : Except String (List Char) :=
  match tableAuxE buf.length buf.length seed with
  | Except.error msg => Except.error msg
  | Except.ok T => Except.ok (applySwaps buf T buf.length)

/-- `Nat.ldiff 6 x` for odd `x`, evaluated: only bits 1 and 2 of `6` survive,
complemented against the low bits of `x`. -/
lemma ldiff_six (m : Nat) : Nat.ldiff 6 (2 * m + 1) = 2 * (3 - m % 4) := by
  apply Nat.eq_of_testBit_eq
  intro i
  rw [Nat.testBit_ldiff]
  have hm : (2 * m + 1) / 2 = m := by omega
  have hb1 : (2 * m + 1).testBit 1 = decide (m % 2 = 1) := by
    rw [Nat.testBit_succ, hm, Nat.testBit_zero]
  have hb2 : (2 * m + 1).testBit 2 = decide (m / 2 % 2 = 1) := by
    rw [Nat.testBit_succ, Nat.testBit_succ, hm, Nat.testBit_zero]
  have e1 : m % 2 = m % 4 % 2 := by omega
  have e2 : m / 2 % 2 = m % 4 / 2 := by omega
  have o1 : (2 * m + 1) % 2 = 1 := by omega
  have h4 : m % 4 = 0 ∨ m % 4 = 1 ∨ m % 4 = 2 ∨ m % 4 = 3 := by omega
  have hge : ∀ k (v : Nat), v < 8 → v.testBit (k + 3) = false := by
    intro k v hv
    apply Nat.testBit_eq_false_of_lt
    calc v < 8 := hv
      _ = 2 ^ 3 := rfl
      _ ≤ 2 ^ (k + 3) := Nat.pow_le_pow_right (by norm_num) (by omega)
  rcases i with _ | (_ | (_ | k))
  · rw [Nat.testBit_zero, Nat.testBit_zero, o1]
    rcases h4 with h | h | h | h <;> rw [h] <;> decide
  · rw [hb1, e1]
    rcases h4 with h | h | h | h <;> rw [h] <;> decide
  · rw [hb2, e2]
    rcases h4 with h | h | h | h <;> rw [h] <;> decide
  · rw [hge k 6 (by norm_num)]
    simp only [Bool.false_and]
    rcases h4 with h | h | h | h <;> rw [h] <;> exact (hge k _ (by norm_num)).symm

/-- Grounding of `shiftOf`: the source expression `-2 * n & 6` (two's-complement
bitwise and, Mathlib's `Int.land`) equals `(-2 * n) mod 8`, the form used by
`shiftOf`. -/
lemma land_neg_two_mul_six (n : Nat) :
    Int.land ((-2 : Int) * (n : Int)) 6 = ((-2 : Int) * (n : Int)) % 8 := by
  cases n with
  | zero => decide
  | succ m =>
    have h1 : (-2 : Int) * ((m + 1 : Nat) : Int) = Int.negSucc (2 * m + 1) := by
      rw [Int.negSucc_eq]
      push_cast
      ring
    rw [h1]
    have h2 : Int.land (Int.negSucc (2 * m + 1)) 6
        = ((Nat.ldiff 6 (2 * m + 1) : Nat) : Int) := rfl
    rw [h2, ldiff_six]
    rw [Int.negSucc_eq]
    push_cast
    omega

example : tableAux 2 2 0 = [1, 1] := by decide
example : tableAux 2 2 1 = [0, 0] := by decide
example : unmask ['a', 'b'] 1 = ['b', 'a'] := by decide
example : unmask ['a', 'b'] 0 = ['a', 'b'] := by decide
example : unmask ['a', 'b', 'c'] 4 = ['a', 'b', 'c'] := by decide
example : vkDecode (String.mk ['z', 'G', 'S', '1'])
    = Except.ok (String.mk ['f', Char.ofNat 11, '5']) := rfl
example : vkDecode (String.mk ['y', 'w', 'j', 'J'])
    = Except.ok (String.mk ['a', 'b', 'c']) := rfl
example : vkDecode (String.mk ['a', 'a'])
    = Except.ok (String.mk [Char.ofNat 0]) := rfl
example : BASE64_CHARS.length = 65 := by decide

/-! ## vk.py : the full `_unmask_url` pipeline -/

/-- Does `sep` occur at the head of `l`? -/
def headMatches : List Char → List Char → Bool
  | [], _ => true
  | _ :: _, [] => false
  | a :: as, b :: bs => a = b && headMatches as bs

/-- Python's `str.split(sep)` for a non-empty separator: split on each
left-to-right non-overlapping occurrence, keeping empty fragments.  `fuel`
bounds the recursion (callers pass `length + 1`, which always suffices for a
non-empty separator). -/
def splitFuel (sep : List Char) : Nat → List Char → List Char → List (List Char)
  | 0, l, acc => [acc.reverse ++ l]
  | fuel + 1, l, acc =>
    match l with
    | [] => [acc.reverse]
    | c :: rest =>
      if headMatches sep l then acc.reverse :: splitFuel sep fuel (l.drop sep.length) []
      else splitFuel sep fuel rest (c :: acc)

/-- Python's `s.split(sep)` on strings (non-empty `sep`). -/
def pySplit (s sep : String) : List String :=
  (splitFuel sep.data (s.data.length + 1) s.data []).map String.mk

example : pySplit (String.mk ['a', '#', 'b', '#']) (String.mk ['#'])
    = [String.mk ['a'], String.mk ['b'], String.mk []] := rfl
example : pySplit (String.mk ['a', 'b']) (String.mk ['#']) = [String.mk ['a', 'b']] := rfl

/-- Decimal digits to a number. -/
def digitsToNat (l : List Char) : Nat :=
  l.foldl (fun acc c => 10 * acc + (c.toNat - 48)) 0

/-- Modelled from the spec: the `base` field is "parsed as an integer" by the
standard `int()` constructor (not part of the sources under review); an
optional sign followed by at least one decimal digit, `ValueError` otherwise. -/
def parseIntPy (s : String) : Option Int :=
  match s.data with
  | [] => none
  | '-' :: rest =>
    if rest ≠ [] ∧ rest.all (fun c => c.isDigit) then some (-(digitsToNat rest : Int)) else none
  | '+' :: rest =>
    if rest ≠ [] ∧ rest.all (fun c => c.isDigit) then some ((digitsToNat rest : Int)) else none
  | l =>
    if l.all (fun c => c.isDigit) then some ((digitsToNat l : Int)) else none

example : parseIntPy (String.mk ['5']) = some 5 := rfl
example : parseIntPy (String.mk ['-', '1', '2']) = some (-12) := rfl
example : parseIntPy (String.mk ['x']) = none := rfl

/-- `_unmask_url` of vk.py.  Exceptions of the Python code (`IndexError` on a
missing `[1]`, `ValueError` from unpacking `func, base = ...` or from `int`,
`ValueError` from `str.index` inside `_decode`) become `Except.error`.  The
marker test `'audio_api_unavailable' in mask_url` is expressed through
`pySplit`: the substring occurs iff splitting on it yields at least two
fragments. -/
def unmask_url (mask_url : String) (vk_id : Int) : Except String String :=
  if 2 ≤ (pySplit mask_url "audio_api_unavailable").length then
    match (pySplit mask_url "?extra=").get? 1 with
    | none => Except.error "IndexError"
    | some p1 =>
      match (pySplit p1 "#").get? 0, (pySplit p1 "#").get? 1 with
      | some e0, some e1 =>
        (match vkDecode e1 with
         | Except.error msg => Except.error msg
         | Except.ok ctl =>
           match pySplit ctl (String.mk [Char.ofNat 11]) with
           | [_, base] =>
             (match vkDecode e0 with
              | Except.error msg => Except.error msg
              | Except.ok payload =>
                match parseIntPy base with
                | none => Except.error "ValueError"
                | some b => Except.ok (String.mk (unmask payload.data (Int.xor b vk_id))))
           | _ => Except.error "ValueError")
      | _, _ => Except.error "IndexError"
  else Except.ok mask_url

/-- The "payload" part of a masked url: `mask_url.split('?extra=')[1].split('#')[0]`. -/
def payloadSegment (raw : String) : Option String :=
  match (pySplit raw "?extra=").get? 1 with
  | none => none
  | some p1 => (pySplit p1 "#").get? 0

example : unmask_url "audio_api_unavailable?extra=ywjJ#zGS1" 1 = Except.ok "abc" := rfl
example : payloadSegment "audio_api_unavailable?extra=ywjJ#zGS1" = some "ywjJ" := rfl
example : unmask_url "https://plain.example/x" 3 = Except.ok "https://plain.example/x" := rfl

/-! ## Spec-side definitions (§4.2 of the spec), for the refinement claim C1 -/

/-- The spec's recurrence formula, as written in §4.2 step 2:
`index = (L × (n+1) XOR (index + n)) mod L`. -/
def specStep (L n : Nat) (index : Int) : Int :=
  (Int.xor ((L * (n + 1) : Nat) : Int) (index + (n : Int))) % ((L : Nat) : Int)

/-- The running `index` of the spec's step 2 as a function of the number `j`
of iterations already performed (the iteration order is `n = L-1` down to
`L-j`); `specIdx L seed 0 = seed`. -/
def specIdx (L : Nat) (seed : Int) : Nat → Int
  | 0 => seed
  | j + 1 => specStep L (L - 1 - j) (specIdx L seed j)

/-- The spec's index table: `T[n]` is the value of `index` after the iteration
that processed `n`, i.e. after `L - n` iterations. -/
def specTable (L : Nat) (seed : Int) : List Int :=
  (List.range L).map (fun n => specIdx L seed (L - n))

/-- The spec's step 3: iterate `n` from `1` to `L-1` ascending and swap
`buffer[n]` with `buffer[T[L-1-n]]`. -/
def specRestore (buf : List Char) (T : List Int) : List Char :=
  (List.range' 1 (buf.length - 1)).foldl
    (fun b n => swapList b n (T.getD (buf.length - 1 - n) 0).toNat) buf

/-- The unmask operation as described by §4.2 of the spec. -/
def specUnmask (buf : List Char) (seed : Int) : List Char :=
  specRestore buf (specTable buf.length seed)

/-! ## neteasemusic.py : the eapi request cipher

`json.dumps`, `hashlib.md5` and the AES block cipher of `yt_dlp/aes.py` are
not part of the sources under review.  JSON serialization is modelled
concretely below (compact separators, insertion order — the behaviour of
`json.dumps(..., separators=(',', ':'))` on `dict`s); the MD5 digest and the
AES block encryption are taken as parameters (`md5hex`, `encBlock`), since
every claim about this component is about how the cipher composes them. -/

/-- JSON values as passed to `json.dumps` by the two request builders. -/
inductive JVal where
  | str (s : String)
  | num (n : Int)
  | null
  | obj (fields : List (String × JVal))
deriving Repr

/-- Modelled from the spec: `json.dumps` escaping of one string character
(`ensure_ascii` behaviour for the basic multilingual plane). -/
def jesc (c : Char) : List Char :=
  if c = '"' then ['\\', '"']
  else if c = '\\' then ['\\', '\\']
  else if c = Char.ofNat 10 then ['\\', 'n']
  else if c = Char.ofNat 13 then ['\\', 'r']
  else if c = Char.ofNat 9 then ['\\', 't']
  else if c = Char.ofNat 8 then ['\\', 'b']
  else if c = Char.ofNat 12 then ['\\', 'f']
  else if c.toNat < 32 ∨ 126 < c.toNat then
    ['\\', 'u'] ++ ((List.range 4).reverse.map
      (fun k => "0123456789abcdef".data.getD (c.toNat >>> (4 * k) % 16) 'x'))
  else [c]

/-- A JSON string literal: quotes around the escaped characters. -/
def jquote (s : String) : String :=
  String.mk ('"' :: s.data.foldr (fun c acc => jesc c ++ acc) ['"'])

mutual
/-- Modelled from the spec: compact `json.dumps` with separators `(',', ':')`
and insertion key order ("stable key order and compact separators", §3). -/
def jdump : JVal → String
  | JVal.str s => jquote s
  | JVal.num n => toString n
  | JVal.null => "null"
  | JVal.obj fields => "\x7b" ++ jfields fields ++ "\x7d"

/-- The comma-separated `"key":value` items of a JSON object. -/
def jfields : List (String × JVal) → String
  | [] => ""
  | [kv] => jquote kv.1 ++ ":" ++ jdump kv.2
  | kv :: rest => jquote kv.1 ++ ":" ++ jdump kv.2 ++ "," ++ jfields rest
end

example : jdump (JVal.obj [("br", JVal.num 128), ("x", JVal.null)])
    = "\x7b\"br\":128,\"x\":null\x7d" := rfl

/-- The Python dict literal `{**query, 'header': cookies}`: insertion order of
`query`, with `'header'` updated in place when present and appended last
otherwise. -/
def mergeHeader (query : List (String × JVal)) (cookies : List (String × JVal)) :
    List (String × JVal) :=
  if query.any (fun kv => kv.1 == "header") then
    query.map (fun kv => if kv.1 == "header" then (kv.1, JVal.obj cookies) else kv)
  else query ++ [("header", JVal.obj cookies)]

/-- `bytes_to_intlist` applied to a string: the list of code points (the
strings fed to it here are ASCII, `.encode('latin1')` agrees). -/
def strBytes (s : String) : List Nat := s.data.map Char.toNat

/-- Modelled from the spec: `pkcs7_padding` of yt_dlp/aes.py is not under
review; §8 of the spec fixes it exactly — append `16 - len mod 16` bytes, each
of that value (a whole block when already aligned). -/
def pkcs7_padding (data : List Nat) : List Nat :=
  data ++ List.replicate (16 - data.length % 16) (16 - data.length % 16)

/-- Modelled from the spec: `aes_ecb_encrypt` of yt_dlp/aes.py is not under
review; per the spec (§4.4 step 6 and glossary), ECB encrypts each 16-byte
block independently with the same key and no chaining.  The block cipher
itself is the parameter `encBlock`. -/
def aes_ecb_encrypt (encBlock : List Nat → List Nat → List Nat)
    (data key : List Nat) : List Nat :=
  (List.range ((data.length + 15) / 16)).foldl
    (fun acc i => acc ++ encBlock ((data.drop (16 * i)).take 16) key) []

/-- `binascii.hexlify(..).upper()`: two uppercase hex digits per byte. -/
def hexUpperStr (bs : List Nat) : String :=
  String.mk (bs.foldr
    (fun b acc =>
      "0123456789ABCDEF".data.getD (b / 16 % 16) 'X'
        :: "0123456789ABCDEF".data.getD (b % 16) 'X' :: acc) [])

example : hexUpperStr [0, 26, 255] = "001AFF" := rfl

/-- `_create_eapi_cipher` of neteasemusic.py, parametrized by the MD5 hex
digest `md5hex` and the AES block encryption `encBlock`.  Returns the request
body bytes `b'params=' + hexlify(encrypted).upper()`. -/
def create_eapi_cipher (md5hex : List Nat → String)
    (encBlock : List Nat → List Nat → List Nat)
    (api_path : String) (query cookies : List (String × JVal)) : List Nat :=
  let KEY := strBytes "e82ckenh8dichen8"
  let request_text := jdump (JVal.obj (mergeHeader query cookies))
  let message := strBytes ("nobody" ++ api_path ++ "use" ++ request_text ++ "md5forencrypt")
  let msg_digest := md5hex message
  let data := pkcs7_padding (strBytes
    (api_path ++ "-36cd479b6b5-" ++ request_text ++ "-36cd479b6b5-" ++ msg_digest))
  let encrypted := aes_ecb_encrypt encBlock data KEY
  strBytes "params=" ++ strBytes (hexUpperStr encrypted)

/-- `RequestCipher.build` as described by §4.4 of the spec, steps 1–7: merge
the payload with the extra fields under the `header` sub-key, serialize
compactly, compute the fixed-template digest, compose the canonical plaintext
with the `36cd479b6b5` markers, pad, ECB-encrypt under the fixed key,
hex-encode in uppercase and prepend `params=`. -/
def RequestCipher_build (md5hex : List Nat → String)
    (encBlock : List Nat → List Nat → List Nat)
    (api_path : String) (payload extra_fields : List (String × JVal)) : List Nat :=
  let requestText := jdump (JVal.obj (mergeHeader payload extra_fields))
  let digest := md5hex (strBytes ("nobody" ++ api_path ++ "use" ++ requestText ++ "md5forencrypt"))
  let plaintext := api_path ++ "-36cd479b6b5-" ++ requestText ++ "-36cd479b6b5-" ++ digest
  let padded := pkcs7_padding (strBytes plaintext)
  let ciphertext := aes_ecb_encrypt encBlock padded (strBytes "e82ckenh8dichen8")
  strBytes "params=" ++ strBytes (hexUpperStr ciphertext)

/-- The body-building part of the legacy
`make_player_api_request_data_and_headers` of neteasemusic.py (the function
also returns headers, which C9 does not compare).  `sidStr` is the decimal
string interpolated by `'[{0}]'.format(song_id)`; the result is the `str`
`'params={0}'.format(encrypted_params)`. -/
def make_player_api_request_data (md5hex : List Nat → String)
    (encBlock : List Nat → List Nat → List Nat)
    (sidStr : String) (bitrate : JVal) (cookie : List (String × JVal)) : String :=
  let KEY := strBytes "e82ckenh8dichen8"
  let URL := "/api/song/enhance/player/url"
  let request_text := jdump (JVal.obj
    [("ids", JVal.str ("[" ++ sidStr ++ "]")), ("br", bitrate), ("header", JVal.obj cookie)])
  let message := strBytes ("nobody" ++ URL ++ "use" ++ request_text ++ "md5forencrypt")
  let msg_digest := md5hex message
  let data := pkcs7_padding (strBytes
    (URL ++ "-36cd479b6b5-" ++ request_text ++ "-36cd479b6b5-" ++ msg_digest))
  let encrypted := aes_ecb_encrypt encBlock data KEY
  "params=" ++ hexUpperStr encrypted

/-! ## Supporting lemmas: the restore loop only exchanges entries -/

lemma cons_eraseIdx_perm : ∀ (l : List Char) (m : Nat) (b : Char),
    l.get? m = some b → List.Perm (b :: l.eraseIdx m) l := by
  intro l
  induction l with
  | nil => intro m b h; simp [List.get?] at h
  | cons x t ih =>
    intro m b h
    cases m with
    | zero =>
      simp [List.get?] at h
      subst h
      simp [List.eraseIdx]
    | succ m =>
      simp only [List.get?] at h
      have h1 : (x :: t).eraseIdx (m + 1) = x :: t.eraseIdx m := rfl
      rw [h1]
      exact (List.Perm.swap x b _).trans (List.Perm.cons x (ih m b h))

lemma set_perm_cons_eraseIdx : ∀ (l : List Char) (m : Nat) (b a : Char),
    l.get? m = some b → List.Perm (l.set m a) (a :: l.eraseIdx m) := by
  intro l
  induction l with
  | nil => intro m b a h; simp [List.get?] at h
  | cons x t ih =>
    intro m b a h
    cases m with
    | zero => simp [List.set, List.eraseIdx]
    | succ m =>
      simp only [List.get?] at h
      have h1 : (x :: t).set (m + 1) a = x :: t.set m a := rfl
      have h2 : (x :: t).eraseIdx (m + 1) = x :: t.eraseIdx m := rfl
      rw [h1, h2]
      exact (List.Perm.cons x (ih m b a h)).trans (List.Perm.swap a x _)

lemma set_set_swap_perm : ∀ (l : List Char) (i j : Nat) (a b : Char),
    l.get? i = some a → l.get? j = some b → List.Perm ((l.set i b).set j a) l := by
  intro l
  induction l with
  | nil => intro i j a b hi _; simp [List.get?] at hi
  | cons x t ih =>
    intro i j a b hi hj
    cases i with
    | zero =>
      simp [List.get?] at hi
      cases j with
      | zero =>
        simp [List.get?] at hj
        subst hi; subst hj
        exact List.Perm.refl _
      | succ m =>
        simp only [List.get?] at hj
        rw [hi]
        have h1 : ((a :: t).set 0 b).set (m + 1) a = b :: t.set m a := rfl
        rw [h1]
        exact ((List.Perm.cons b (set_perm_cons_eraseIdx t m b a hj)).trans
          (List.Perm.swap a b _)).trans (List.Perm.cons a (cons_eraseIdx_perm t m b hj))
    | succ k =>
      simp only [List.get?] at hi
      cases j with
      | zero =>
        simp [List.get?] at hj
        rw [hj]
        have h1 : ((b :: t).set (k + 1) b).set 0 a = a :: t.set k b := rfl
        rw [h1]
        exact ((List.Perm.cons a (set_perm_cons_eraseIdx t k a b hi)).trans
          (List.Perm.swap b a _)).trans (List.Perm.cons b (cons_eraseIdx_perm t k a hi))
      | succ m =>
        simp only [List.get?] at hj
        have h1 : ((x :: t).set (k + 1) b).set (m + 1) a = x :: (t.set k b).set m a := rfl
        rw [h1]
        exact List.Perm.cons x (ih k m a b hi hj)

/-- A single swap of the restore loop never changes the character multiset. -/
lemma swapList_perm (l : List Char) (i j : Nat) : List.Perm (swapList l i j) l := by
  unfold swapList
  split
  · next a b hi hj => exact set_set_swap_perm l i j a b hi hj
  · exact List.Perm.refl l

/-- Folding any sequence of swaps never changes the character multiset. -/
lemma foldl_swap_perm (f : Nat → Nat) :
    ∀ (ns : List Nat) (buf : List Char),
      List.Perm (ns.foldl (fun b n => swapList b n (f n)) buf) buf := by
  intro ns
  induction ns with
  | nil => intro buf; exact List.Perm.refl buf
  | cons n rest ih =>
    intro buf
    exact (ih (swapList buf n (f n))).trans (swapList_perm buf n (f n))

/-- The restore phase permutes the buffer. -/
lemma applySwaps_perm (buf : List Char) (T : List Int) (url_len : Nat) :
    List.Perm (applySwaps buf T url_len) buf :=
  foldl_swap_perm _ _ buf

/-- The unmask core returns a rearrangement of its input buffer. -/
lemma unmask_perm (buf : List Char) (seed : Int) : List.Perm (unmask buf seed) buf :=
  applySwaps_perm buf _ _

/-! ## Supporting lemmas: when position 0 is touched -/

/-- A swap whose both positions are non-zero leaves entry 0 alone. -/
lemma swapList_get_zero (l : List Char) (i j : Nat) (hi : i ≠ 0) (hj : j ≠ 0) :
    (swapList l i j).get? 0 = l.get? 0 := by
  unfold swapList
  split
  · next a b _ _ =>
    rw [List.get?_set_ne a _ hj, List.get?_set_ne b _ hi]
  · rfl

/-- Folding swaps at non-zero positions with non-zero targets preserves entry 0. -/
lemma foldl_swap_get_zero (f : Nat → Nat) :
    ∀ (ns : List Nat) (buf : List Char), (∀ n ∈ ns, n ≠ 0 ∧ f n ≠ 0) →
      (ns.foldl (fun b n => swapList b n (f n)) buf).get? 0 = buf.get? 0 := by
  intro ns
  induction ns with
  | nil => intro buf _; rfl
  | cons n rest ih =>
    intro buf h
    have hn := h n (List.mem_cons_self n rest)
    rw [List.foldl_cons,
      ih (swapList buf n (f n)) (fun m hm => h m (List.mem_cons_of_mem n hm))]
    exact swapList_get_zero buf n (f n) hn.1 hn.2

/-! ## Supporting lemmas: the index table -/

/-- Every entry of the table is a `% url_len` residue, hence in `[0, L)`. -/
lemma tableAux_mem_range (L : Nat) (hL : 0 < L) :
    ∀ (m : Nat) (i : Int), ∀ x ∈ tableAux L m i, 0 ≤ x ∧ x < (L : Int) := by
  intro m
  induction m with
  | zero => intro i x hx; simp [tableAux] at hx
  | succ m ih =>
    intro i x hx
    unfold tableAux at hx
    rcases List.mem_append.mp hx with h | h
    · exact ih (vkStep L m i) x h
    · have hx2 : x = vkStep L m i := List.mem_singleton.mp h
      subst hx2
      unfold vkStep
      constructor
      · exact Int.emod_nonneg _ (by exact_mod_cast hL.ne')
      · exact Int.emod_lt_of_pos _ (by exact_mod_cast hL)

/-- The source's descending table-building loop computes exactly the spec's
recurrence: entry `n` holds the value of `index` after `L - n` iterations. -/
lemma tableAux_eq_specTable (L : Nat) (seed : Int) :
    ∀ m, m ≤ L → tableAux L m (specIdx L seed (L - m))
      = (List.range m).map (fun n => specIdx L seed (L - n)) := by
  intro m
  induction m with
  | zero => intro _; rfl
  | succ m ih =>
    intro h
    have hkey : vkStep L m (specIdx L seed (L - (m + 1))) = specIdx L seed (L - m) := by
      have h1 : L - m = (L - (m + 1)) + 1 := by omega
      have h2 : L - 1 - (L - (m + 1)) = m := by omega
      rw [h1]
      show vkStep L m (specIdx L seed (L - (m + 1)))
          = specStep L (L - 1 - (L - (m + 1))) (specIdx L seed (L - (m + 1)))
      rw [h2]
      rfl
    unfold tableAux
    rw [hkey, ih (by omega), List.range_succ, List.map_append]
    simp

/-- The full table of `_unmask_url` equals the spec's table. -/
lemma table_eq_specTable (L : Nat) (seed : Int) :
    tableAux L L seed = specTable L seed := by
  have h := tableAux_eq_specTable L seed L (le_refl L)
  rw [Nat.sub_self] at h
  exact h

/-! ## Supporting lemmas: `_decode` on alphabet input -/

/-- Number of bytes `_decode` emits while consuming `len` symbols starting
with the symbol counter at `n`: one byte per symbol whose pre-increment
counter is not divisible by 4. -/
def countEmits : Nat → Nat → Nat
  | _, 0 => 0
  | n, len + 1 => (if n % 4 ≠ 0 then 1 else 0) + countEmits (n + 1) len

lemma countEmits_shift (len : Nat) : ∀ n, countEmits (n + 4) len = countEmits n len := by
  induction len with
  | zero => intro n; rfl
  | succ len ih =>
    intro n
    unfold countEmits
    have h : (n + 4) % 4 = n % 4 := by omega
    rw [h, ih (n + 1)]

lemma countEmits_zero_eq (len : Nat) : countEmits 0 len = 3 * len / 4 := by
  induction len using Nat.strong_induction_on with
  | _ len ih =>
    match len with
    | 0 => rfl
    | 1 => rfl
    | 2 => rfl
    | 3 => rfl
    | m + 4 =>
      have h4 : countEmits 0 (m + 4) = 3 + countEmits 4 m := by
        show (0 : Nat) + (1 + (1 + (1 + countEmits 4 m))) = 3 + countEmits 4 m
        omega
      rw [h4, countEmits_shift m 0, ih m (by omega)]
      have h5 : 3 * (m + 4) = 3 * m + 3 * 4 := by ring
      rw [h5, Nat.add_mul_div_right _ _ (by norm_num : (0 : Nat) < 4)]
      omega

/-- Characters of the alphabet are found by `str.index`. -/
lemma indexAux_some : ∀ (l : List Char) (c : Char), c ∈ l → ∃ i, indexAux c l = some i := by
  intro l c
  induction l with
  | nil => intro h; simp at h
  | cons x xs ih =>
    intro h
    unfold indexAux
    by_cases hx : x = c
    · exact ⟨0, by simp [hx]⟩
    · have hm : c ∈ xs := by
        rcases List.mem_cons.mp h with h1 | h1
        · exact absurd h1.symm hx
        · exact h1
      obtain ⟨i, hi⟩ := ih hm
      exact ⟨i + 1, by simp [hx, hi]⟩

lemma b64Index_ok (c : Char) (h : c ∈ BASE64_CHARS) : ∃ r, b64Index c = Except.ok r := by
  obtain ⟨i, hi⟩ := indexAux_some BASE64_CHARS c h
  exact ⟨i, by unfold b64Index; rw [hi]⟩

/-- `_decode` succeeds on alphabet input and emits `countEmits 0 len` bytes. -/
lemma decodeAux_ok : ∀ (l : List Char) (e n : Nat), (∀ c ∈ l, c ∈ BASE64_CHARS) →
    ∃ out, decodeAux l e n = Except.ok out ∧ out.length = countEmits n l.length := by
  intro l
  induction l with
  | nil => intro e n _; exact ⟨[], rfl, rfl⟩
  | cons c rest ih =>
    intro e n h
    obtain ⟨r, hr⟩ := b64Index_ok c (h c (List.mem_cons_self c rest))
    obtain ⟨tail, htail, hlen⟩ :=
      ih (accStep e r n) (n + 1) (fun x hx => h x (List.mem_cons_of_mem c hx))
    simp only [decodeAux, hr, htail]
    by_cases hn : n % 4 = 0
    · refine ⟨tail, by simp [hn], ?_⟩
      rw [hlen]
      show countEmits (n + 1) rest.length = countEmits n (rest.length + 1)
      rw [show countEmits n (rest.length + 1)
          = (if n % 4 ≠ 0 then 1 else 0) + countEmits (n + 1) rest.length from rfl]
      simp [hn]
    · refine ⟨emitByte (accStep e r n) (n + 1) :: tail, by simp [hn], ?_⟩
      show tail.length + 1 = countEmits n (rest.length + 1)
      rw [show countEmits n (rest.length + 1)
          = (if n % 4 ≠ 0 then 1 else 0) + countEmits (n + 1) rest.length from rfl,
        if_pos hn]
      omega

/-! ## Claim theorems -/

/-- C1: for every buffer of length `L > 0` and every integer seed,
`_unmask_url` builds the index table by iterating `n` from `L-1` down to `0`
with `index = (L*(n+1) XOR (index + n)) mod L` and `T[n] = index`, then for
`n = 1` to `L-1` ascending swaps `buffer[n]` with `buffer[T[L-1-n]]`; in
particular the code expression `(url_len * (n + 1) ^ index + n) % url_len`
computes exactly the spec formula (XOR after the addition, modulus last). -/
theorem c1_unmask_matches_spec (buf : List Char) (seed : Int) (h : 0 < buf.length) :
    (∀ (L n : Nat) (index : Int), vkStep L n index = specStep L n index) ∧
    unmask buf seed = specUnmask buf seed := by
  refine ⟨fun L n index => rfl, ?_⟩
  unfold unmask specUnmask specRestore applySwaps
  rw [table_eq_specTable]

theorem c1_unmask_matches_spec_witness :
    0 < (['a', 'b'] : List Char).length ∧
    ((∀ (L n : Nat) (index : Int), vkStep L n index = specStep L n index) ∧
      unmask ['a', 'b'] 1 = specUnmask ['a', 'b'] 1) :=
  ⟨by decide, c1_unmask_matches_spec ['a', 'b'] 1 (by decide)⟩

/-- C3 counterexample: the two-symbol input `"aa"` (a trailing incomplete
group of 2 symbols, `k = 0` full groups) decodes to one byte, not zero. -/
theorem c3_counterexample :
    vkDecode (String.mk ['a', 'a']) = Except.ok (String.mk [Char.ofNat 0]) ∧
    ¬ ((String.mk [Char.ofNat 0]).length = 3 * ((String.mk ['a', 'a']).length / 4)) :=
  ⟨rfl, by decide⟩

/-- C3 amended: on input over the alphabet of length `4k + r`, `_decode`
yields `3k` bytes plus `r - 1` further bytes from a trailing group of
`r ≥ 1` symbols — in total `3·len / 4` bytes (floor), not `3k`. -/
theorem c3_decode_length (s : String) (h : ∀ c ∈ s.data, c ∈ BASE64_CHARS) :
    ∃ out, vkDecode s = Except.ok out ∧ out.length = 3 * s.length / 4 := by
  obtain ⟨l, hok, hlen⟩ := decodeAux_ok s.data 0 0 h
  refine ⟨String.mk l, ?_, ?_⟩
  · unfold vkDecode
    rw [hok]
  · show l.length = 3 * s.length / 4
    rw [hlen, countEmits_zero_eq]
    rfl

theorem c3_decode_length_witness :
    (∀ c ∈ (String.mk ['a', 'a']).data, c ∈ BASE64_CHARS) ∧
    ∃ out, vkDecode (String.mk ['a', 'a']) = Except.ok out ∧
      out.length = 3 * (String.mk ['a', 'a']).length / 4 :=
  ⟨by decide, c3_decode_length (String.mk ['a', 'a']) (by decide)⟩

/-- C4 counterexample: the embedded alphabet constant has 65 symbols, not 64
(the trailing `'='` is part of the string and maps to value 64). -/
theorem c4_counterexample : BASE64_CHARS.length ≠ 64 := by decide

/-- C4 amended: the alphabet constant is an ordered sequence of exactly 65
distinct symbols — the 64 data symbols followed by `'='` at position 64 — so
position-to-symbol is injective, and on the first 64 positions the induced
symbol-to-value map is a bijection onto `0..63`. -/
theorem c4_alphabet_65_distinct :
    BASE64_CHARS.length = 65 ∧ BASE64_CHARS.Nodup
      ∧ BASE64_CHARS.getLast? = some '=' := by decide

/-- C5 counterexample: at `L = 2`, `seed = 0` the table is `[1, 1]` — it has a
duplicate and does not contain `0`, so it is not a permutation of `[0, L)`. -/
theorem c5_counterexample :
    ¬ ((tableAux 2 2 0).Nodup ∧ ∀ k : Fin 2, ((k : Nat) : Int) ∈ tableAux 2 2 0) := by
  decide

/-- C5 amended: for every `L > 0` and seed the table produced by step 2 is a
list of valid indices — every entry lies in `[0, L)` — but it need not be a
permutation of `[0, L)`. -/
theorem c5_table_entries_in_range (L : Nat) (seed : Int) (h : 0 < L) :
    ∀ x ∈ tableAux L L seed, 0 ≤ x ∧ x < (L : Int) :=
  tableAux_mem_range L h L seed

theorem c5_table_entries_in_range_witness :
    0 < 2 ∧ ∀ x ∈ tableAux 2 2 0, 0 ≤ x ∧ x < ((2 : Nat) : Int) :=
  ⟨by decide, c5_table_entries_in_range 2 0 (by decide)⟩

/-- C6 counterexample: with buffer `['a', 'b']` and seed `1` the table is
`[0, 0]`, the restore loop swaps positions `1` and `0`, and the character at
position 0 changes from `'a'` to `'b'`. -/
theorem c6_counterexample :
    (unmask ['a', 'b'] 1).get? 0 = some 'b' ∧
    (['a', 'b'] : List Char).get? 0 = some 'a' ∧ ('b' : Char) ≠ 'a' := by
  decide

/-- C6 amended: position 0 is never the loop position `n` (which starts at 1),
but it can be chosen as a swap target; position 0 is left unchanged whenever
no used table entry `T[L-1-n]`, `n = 1..L-1`, is `0`. -/
theorem c6_position_zero_fixed (buf : List Char) (seed : Int) (h : 0 < buf.length)
    (h0 : ∀ n ∈ List.range' 1 (buf.length - 1),
      ((tableAux buf.length buf.length seed).getD (buf.length - 1 - n) 0).toNat ≠ 0) :
    (unmask buf seed).get? 0 = buf.get? 0 := by
  unfold unmask applySwaps
  apply foldl_swap_get_zero
  intro n hn
  refine ⟨?_, h0 n hn⟩
  have hr := List.mem_range'_1.mp hn
  omega

theorem c6_position_zero_fixed_witness :
    (0 < (['a', 'b'] : List Char).length ∧
      (∀ n ∈ List.range' 1 ((['a', 'b'] : List Char).length - 1),
        ((tableAux (['a', 'b'] : List Char).length (['a', 'b'] : List Char).length 0).getD
          ((['a', 'b'] : List Char).length - 1 - n) 0).toNat ≠ 0)) ∧
    (unmask ['a', 'b'] 0).get? 0 = (['a', 'b'] : List Char).get? 0 :=
  ⟨⟨by decide, by decide⟩, c6_position_zero_fixed ['a', 'b'] 0 (by decide) (by decide)⟩

/-- C7 counterexample: on the empty buffer (`L = 0`) the error-instrumented
unmask raises nothing — both loops are empty, so the `% url_len` with
`url_len == 0` is never executed and the empty buffer is returned. -/
theorem c7_counterexample : unmaskE [] 0 = Except.ok ([] : List Char) := rfl

/-- C7 amended: `_unmask_url`'s core does not require `L > 0`: applied to a
buffer of length 0 it raises no `ZeroDivisionError` (the table loop and the
restore loop are both empty) and returns the buffer unchanged. -/
theorem c7_empty_buffer_ok (seed : Int) :
    unmaskE [] seed = Except.ok ([] : List Char) ∧ unmask [] seed = [] :=
  ⟨rfl, rfl⟩

/-- C8 counterexample: `_decode` raises `ValueError` on `'!'`, a character
outside the alphabet (from `str.index`). -/
theorem c8_counterexample : vkDecode (String.mk ['!']) = Except.error "ValueError" := rfl

/-- C8 amended: `_decode` never raises on input over the alphabet — short or
incomplete input silently yields fewer bytes — but a character outside the
alphabet raises `ValueError` from `str.index`. -/
theorem c8_decode_ok_on_alphabet (s : String) (h : ∀ c ∈ s.data, c ∈ BASE64_CHARS) :
    ∃ out, vkDecode s = Except.ok out := by
  obtain ⟨l, hok, _⟩ := decodeAux_ok s.data 0 0 h
  refine ⟨String.mk l, ?_⟩
  unfold vkDecode
  rw [hok]

theorem c8_decode_ok_on_alphabet_witness :
    (∀ c ∈ (String.mk ['z', 'G', 'S', '1']).data, c ∈ BASE64_CHARS) ∧
    ∃ out, vkDecode (String.mk ['z', 'G', 'S', '1']) = Except.ok out :=
  ⟨by decide, c8_decode_ok_on_alphabet (String.mk ['z', 'G', 'S', '1']) (by decide)⟩

/-- C2: for every api_path, payload mapping and cookie mapping (and any MD5
digest function and AES block cipher, which live outside the reviewed
sources), `_create_eapi_cipher` returns `b'params='` followed by the uppercase
hex of the ECB encryption under the fixed key of the padded plaintext
`{api_path}-36cd479b6b5-{requestText}-36cd479b6b5-{digest}`, where
`requestText` is the compact JSON of the payload merged with the cookies under
`'header'` and `digest = md5("nobody" + api_path + "use" + requestText +
"md5forencrypt")` — i.e. it implements §4.4 steps 1–7 exactly. -/
theorem c2_cipher_matches_spec (md5hex : List Nat → String)
    (encBlock : List Nat → List Nat → List Nat)
    (api_path : String) (query cookies : List (String × JVal)) :
    create_eapi_cipher md5hex encBlock api_path query cookies
      = RequestCipher_build md5hex encBlock api_path query cookies := rfl

/-- C9: with identical cookie mappings, the legacy
`make_player_api_request_data_and_headers` and the newer `_create_eapi_cipher`
(at api_path `/api/song/enhance/player/url` with query
`{'ids': '[<song_id>]', 'br': bitrate}`) produce byte-for-byte identical
`params=`-prefixed bodies, once the legacy `str` result is ASCII-encoded. -/
theorem c9_legacy_equals_new (md5hex : List Nat → String)
    (encBlock : List Nat → List Nat → List Nat)
    (sidStr : String) (bitrate : JVal) (cookie : List (String × JVal)) :
    strBytes (make_player_api_request_data md5hex encBlock sidStr bitrate cookie)
      = create_eapi_cipher md5hex encBlock "/api/song/enhance/player/url"
          [("ids", JVal.str ("[" ++ sidStr ++ "]")), ("br", bitrate)] cookie := by
  show strBytes ("params=" ++ hexUpperStr _) = _
  rw [show ∀ a b : String, strBytes (a ++ b) = strBytes a ++ strBytes b from
    fun a b => by simp [strBytes]]
  rfl

/-- C10: whenever the masked input contains the obfuscation marker and the
delimiter and integer parsing of `_unmask_url` succeed, the returned URL is a
rearrangement of the characters of the alphabet-decoded payload segment —
same length, same multiset — since the restore loop only exchanges pairs. -/
theorem c10_unmask_output_is_rearrangement (raw p d url : String) (vk_id : Int)
    (hmark : 2 ≤ (pySplit raw "audio_api_unavailable").length)
    (hp : payloadSegment raw = some p)
    (hd : vkDecode p = Except.ok d)
    (hok : unmask_url raw vk_id = Except.ok url) :
    List.Perm url.data d.data := by
  unfold unmask_url at hok
  rw [if_pos hmark] at hok
  unfold payloadSegment at hp
  split at hok
  · exact absurd hok (by simp)
  · next p1 h1 =>
    rw [h1] at hp
    simp only at hp
    split at hok
    · next e0 e1 h2 h3 =>
      rw [h2] at hp
      split at hok
      · next m h4 => exact absurd hok (by simp)
      · next ctl h4 =>
        split at hok
        · next f base h5 =>
          split at hok
          · next m h6 => exact absurd hok (by simp)
          · next payload h6 =>
            split at hok
            · exact absurd hok (by simp)
            · next b h7 =>
              have he0p : e0 = p := Option.some.inj hp
              rw [he0p, hd] at h6
              have hpd : payload = d := (Except.ok.inj h6).symm
              have hurl : url = String.mk (unmask payload.data (Int.xor b vk_id)) :=
                (Except.ok.inj hok).symm
              rw [hurl, hpd]
              exact unmask_perm d.data _
        · next h5 => exact absurd hok (by simp)
    · next h2 h3 => exact absurd hok (by simp)

theorem c10_unmask_output_is_rearrangement_witness :
    (2 ≤ (pySplit "audio_api_unavailable?extra=ywjJ#zGS1" "audio_api_unavailable").length ∧
      payloadSegment "audio_api_unavailable?extra=ywjJ#zGS1" = some "ywjJ" ∧
      vkDecode "ywjJ" = Except.ok "abc" ∧
      unmask_url "audio_api_unavailable?extra=ywjJ#zGS1" 1 = Except.ok "abc") ∧
    List.Perm ("abc" : String).data ("abc" : String).data :=
  ⟨⟨by decide, rfl, rfl, rfl⟩,
    c10_unmask_output_is_rearrangement "audio_api_unavailable?extra=ywjJ#zGS1"
      "ywjJ" "abc" "abc" 1 (by decide) rfl rfl rfl⟩
